import Mathlib

/-!
# tsh: job registry, signal relays and the bg/fg builtin

A shallow embedding of the job-control core of `tsh.c`:

* the job table `struct job_t jobs[MAXJOBS]` with the global `nextjid`
  (`clearjob`, `initjobs`, `maxjid`, `addjob`, `deletejob`, `fgpid`,
  `getjobpid`, `getjobjid`);
* the two terminal signal handlers `sigint_handler` and `sigtstp_handler`;
* the builtin `do_bgfg` together with `stringToInt`.

Conventions of the embedding.

* The table is a function `Fin MAXJOBS → job_t`, so a table has exactly
  `MAXJOBS` slots; a C pointer `struct job_t *` into the table is the
  index of the slot and `NULL` is `none`.
* `int` and `pid_t` values are integers, and the arithmetic the code does
  on them (`nextjid++`, `maxjid(jobs)+1`, the loop of `stringToInt`) wraps
  to 32 bits (`wrapInt`).
* A C string is the text before its terminating NUL, and its `char`s are
  the bytes of the UTF-8 encoding, read as signed. The field `cmdline`
  holds a text of fewer than `MAXLINE` bytes (`cmdlineFits`).
* Calls with an effect outside the table (`printf`, `kill`, `waitfg`) are
  recorded, in program order, in a list of `Event`s.
* Dereferencing `NULL` or reading an uninitialised local is a fault: the
  function returns `none`.
-/

namespace Tsh

/-- Maximum line size, `#define MAXLINE 1024`. -/
abbrev MAXLINE : Nat := 1024

/-- Maximum number of jobs at any point in time, `#define MAXJOBS 16`. -/
abbrev MAXJOBS : Nat := 16

/-- Job state `UNDEF`: undefined. -/
abbrev UNDEF : Int := 0

/-- Job state `FG`: running in foreground. -/
abbrev FG : Int := 1

/-- Job state `BG`: running in background. -/
abbrev BG : Int := 2

/-- Job state `ST`: stopped. -/
abbrev ST : Int := 3

/-- The job struct `struct job_t`. -/
structure job_t where
  /-- job PID -/
  pid : Int
  /-- job ID [1, 2, ...] -/
  jid : Int
  /-- UNDEF, BG, FG, or ST -/
  state : Int
  /-- command line -/
  cmdline : String
deriving DecidableEq, Repr

/-- The signals the shell sends or relays. -/
inductive Signal where
  | SIGINT
  | SIGTSTP
  | SIGCONT
deriving DecidableEq, Repr

/-- Observable calls, in program order: text written by `printf`, a
`kill(pid, sig)` call, and entry into the polling loop `waitfg(pid)`. -/
inductive Event where
  | printf (text : String)
  | kill (pid : Int) (sig : Signal)
  | waitfg (pid : Int)
deriving DecidableEq, Repr

/-- The global variables of the shell that job control reads and writes:
the job list `jobs`, the next job ID to allocate `nextjid`, and the
`verbose` flag. -/
structure Shell where
  jobs : Fin MAXJOBS → job_t
  nextjid : Int
  verbose : Int

/-- The text `printf` produces for a `%d` conversion. -/
def fmtInt (n : Int) : String := toString n

/-- The arithmetic of a 32-bit `int`: the value reduced into
`[-2^31, 2^31)`, so `INT_MAX + 1` is `INT_MIN`. -/
def wrapInt (x : Int) : Int := (x + 2147483648) % 4294967296 - 2147483648

/-- A command line that `strcpy` can store in the field
`char cmdline[MAXLINE]`: its bytes and the terminating NUL fit, so it has
fewer than `MAXLINE` bytes. `main` reads lines with
`fgets(cmdline, MAXLINE, stdin)`, which yields such lines only. -/
def cmdlineFits (cmdline : String) : Prop := cmdline.utf8ByteSize < MAXLINE

instance (cmdline : String) : Decidable (cmdlineFits cmdline) := by
  unfold cmdlineFits
  infer_instance

/-- The scan shared by the table loops
`for (i = 0; i < MAXJOBS; i++) if (p(jobs[i])) return ...;`:
the first index whose slot satisfies `p`, or `none` when the loop runs to
its end. -/
def firstSlot (p : job_t → Bool) (jobs : Fin MAXJOBS → job_t) : Option (Fin MAXJOBS) :=
  (List.finRange MAXJOBS).find? (fun i => p (jobs i))

/-- clearjob - Clear the entries in a job struct. -/
def clearjob (job : job_t) : job_t :=
  { job with pid := 0, jid := 0, state := UNDEF, cmdline := "" }

/-- initjobs - Initialize the job list. -/
def initjobs (jobs : Fin MAXJOBS → job_t) : Fin MAXJOBS → job_t :=
  fun i => clearjob (jobs i)

/-- maxjid - Returns largest allocated job ID. -/
def maxjid (jobs : Fin MAXJOBS → job_t) : Int :=
  (List.finRange MAXJOBS).foldl
    (fun max i => if (jobs i).jid > max then (jobs i).jid else max) 0

/-- addjob - Add a job to the job list. Returns the C return value, the
globals after the call and what was printed. `nextjid++` is 32-bit
arithmetic. `strcpy(jobs[i].cmdline, cmdline)` stores the text of `cmdline`
when `cmdlineFits cmdline`; for a longer text the C code writes past the
record, which this definition does not describe, so every statement about
the table after a successful call takes `cmdlineFits cmdline` as a
hypothesis or uses a fixed short text. -/
def addjob (s : Shell) (pid : Int) (state : Int) (cmdline : String) :
    Int × Shell × List Event :=
  if pid < 1 then (0, s, [])
  else
    match firstSlot (fun j => j.pid == 0) s.jobs with
    | some i =>
      let job : job_t := { pid := pid, state := state, jid := s.nextjid, cmdline := cmdline }
      let nextjid := wrapInt (s.nextjid + 1)
      let nextjid := if nextjid > MAXJOBS then 1 else nextjid
      let out :=
        if s.verbose ≠ 0 then
          [Event.printf ("Added job [" ++ fmtInt job.jid ++ "] " ++ fmtInt job.pid ++ " "
            ++ job.cmdline ++ "\n")]
        else []
      (1, { s with jobs := Function.update s.jobs i job, nextjid := nextjid }, out)
    | none => (0, s, [Event.printf "Tried to create too many jobs\n"])

/-- deletejob - Delete a job whose PID=pid from the job list. The sum
`maxjid(jobs)+1` is 32-bit arithmetic. -/
def deletejob (s : Shell) (pid : Int) : Int × Shell :=
  if pid < 1 then (0, s)
  else
    match firstSlot (fun j => j.pid == pid) s.jobs with
    | some i =>
      let jobs := Function.update s.jobs i (clearjob (s.jobs i))
      (1, { s with jobs := jobs, nextjid := wrapInt (maxjid jobs + 1) })
    | none => (0, s)

/-- fgpid - Return PID of current foreground job, 0 if no such job. -/
def fgpid (jobs : Fin MAXJOBS → job_t) : Int :=
  match firstSlot (fun j => j.state == FG) jobs with
  | some i => (jobs i).pid
  | none => 0

/-- getjobpid - Find a job (by PID) on the job list. -/
def getjobpid (jobs : Fin MAXJOBS → job_t) (pid : Int) : Option (Fin MAXJOBS) :=
  if pid < 1 then none
  else firstSlot (fun j => j.pid == pid) jobs

/-- getjobjid - Find a job (by JID) on the job list. -/
def getjobjid (jobs : Fin MAXJOBS → job_t) (jid : Int) : Option (Fin MAXJOBS) :=
  if jid < 1 then none
  else firstSlot (fun j => j.jid == jid) jobs

/-- The state of the globals when `main` has run `initjobs(jobs)`:
every slot cleared, `nextjid = 1`, `verbose = 0`. -/
def initShell : Shell :=
  { jobs := initjobs (fun _ => { pid := 0, jid := 0, state := 0, cmdline := "" }),
    nextjid := 1,
    verbose := 0 }

/-- The value of a byte of a C string read through `char`, a signed type on
the platform of the shell: bytes from 128 on are negative. -/
def charOfByte (b : UInt8) : Int :=
  if b.toNat < 128 then (b.toNat : Int) else (b.toNat : Int) - 256

/-- The `char` values that hold the character `c` in a C string: the bytes
of its UTF-8 encoding. A character below 128 is one `char` of that value. -/
def charBytes (c : Char) : List Int :=
  (String.utf8EncodeChar c).map charOfByte

/-- The body of the loop of `stringToInt` for one `char`:
`returnInt *= 10; returnInt += (str[i] - 48);`. -/
def stringToIntStep (returnInt : Int) (ch : Int) : Int :=
  wrapInt (wrapInt (returnInt * 10) + (ch - 48))

/-- stringToInt - Converts a string to an int. The loop
`for (i = 0; str[i] != 0; i++) { returnInt *= 10; returnInt += (str[i] - 48); }`
run over the `char`s of `str`, character after character. -/
def stringToInt (str : List Char) : Int :=
  str.foldl (fun returnInt c => (charBytes c).foldl stringToIntStep returnInt) 0

/-- The target selection shared by the `fg` and `bg` branches of `do_bgfg`:
`some JOB` when `argv[1]` starts with `%` (lookup by job ID of the rest) or
with a decimal digit (lookup by PID of the whole argument), `none` when the
branch prints the usage message. `argv1` is `none` for a NULL `argv[1]`. -/
def bgfgTarget (jobs : Fin MAXJOBS → job_t) (argv1 : Option String) :
    Option (Option (Fin MAXJOBS)) :=
  match argv1 with
  | none => none
  | some a =>
    match a.toList with
    | [] => none
    | c :: rest =>
      if c = '%' then
        let jobID := stringToInt rest
        some (getjobjid jobs jobID)
      else if (c.toNat : Int) - 48 ≥ 0 ∧ (c.toNat : Int) - 48 < 10 then
        let PID := stringToInt (c :: rest)
        some (getjobpid jobs PID)
      else none

/-- The tail of `do_bgfg` once `JOB` and `isFG` are set: signal the job and
update its state, or report that it was not found. -/
def bgfgResume (s : Shell) (isFG : Bool) (JOB : Option (Fin MAXJOBS)) : Shell × List Event :=
  match JOB with
  | some k =>
    let job := s.jobs k
    if !isFG then
      ({ s with jobs := Function.update s.jobs k { job with state := BG } },
        [Event.kill job.pid Signal.SIGCONT,
         Event.printf ("Job [" ++ fmtInt job.jid ++ "] (" ++ fmtInt job.pid ++ ") " ++ job.cmdline)])
    else
      ({ s with jobs := Function.update s.jobs k { job with state := FG } },
        [Event.kill job.pid Signal.SIGCONT, Event.waitfg job.pid])
  | none => (s, [Event.printf "Could not find that JOB\n"])

/-- do_bgfg - Execute the builtin bg and fg commands. `argv` is the
NULL-terminated argument vector with `argv[0]` present. When `argv[0]` is
neither `fg` nor `bg` the C code reads `JOB` uninitialised: a fault. -/
def do_bgfg (s : Shell) (argv : List String) : Option (Shell × List Event) :=
  match argv with
  | [] => none
  | cmd :: args =>
    if cmd = "fg" then
      match bgfgTarget s.jobs args.head? with
      | some JOB => some (bgfgResume s true JOB)
      | none => some (s, [Event.printf "Invalid  arguments for fg\n"])
    else if cmd = "bg" then
      match bgfgTarget s.jobs args.head? with
      | some JOB => some (bgfgResume s false JOB)
      | none => some (s, [Event.printf "Invalid arguements for bg\n"])
    else none

/-- sigint_handler - The kernel sends a SIGINT to the shell whenever the
user types ctrl-c at the keyboard. The condition `!(pid = fgpid(jobs)) == 0`
holds exactly when `pid` is nonzero; `getjobpid(jobs, pid)->pid` faults on
a NULL result. -/
def sigint_handler (s : Shell) : Option (Shell × List Event) :=
  let pid := fgpid s.jobs
  if pid ≠ 0 then
    match getjobpid s.jobs pid with
    | none => none
    | some k =>
      let jobID := (s.jobs k).pid
      let r := deletejob s pid
      if r.1 = 1 then
        some (r.2, [Event.printf ("Job [" ++ fmtInt jobID ++ "] (" ++ fmtInt pid
          ++ ") Terminated by signal 2\n")])
      else
        some (r.2, [Event.printf "could not kill the job\n"])
  else some (s, [])

/-- sigtstp_handler - The kernel sends a SIGTSTP to the shell whenever the
user types ctrl-z at the keyboard. `JOB = getjobpid(jobs, pid)` is used
without a test, so `JOB->state = ST` faults on a NULL result. -/
def sigtstp_handler (s : Shell) : Option (Shell × List Event) :=
  let pid := fgpid s.jobs
  match getjobpid s.jobs pid with
  | none => none
  | some k =>
    let jobs := Function.update s.jobs k { s.jobs k with state := ST }
    some ({ s with jobs := jobs },
      [Event.kill pid Signal.SIGTSTP,
       Event.printf ("Job [" ++ fmtInt (jobs k).jid ++ "] (" ++ fmtInt pid
         ++ ") Terminated by signal 20\n")])

/-- One call on the job list: `addjob(jobs, pid, state, cmdline)` or
`deletejob(jobs, pid)`. -/
inductive JobCall where
  | add (pid : Int) (state : Int) (cmdline : String)
  | del (pid : Int)

/-- The command line of a call fits the record; a `deletejob` call has
none. -/
def JobCall.fits : JobCall → Prop
  | JobCall.add _ _ cmdline => cmdlineFits cmdline
  | JobCall.del _ => True

/-- The globals after one call. -/
def JobCall.run (s : Shell) : JobCall → Shell
  | JobCall.add pid state cmdline => (addjob s pid state cmdline).2.1
  | JobCall.del pid => (deletejob s pid).2

/-- The globals after a finite sequence of calls, first call first. -/
def runCalls (s : Shell) (calls : List JobCall) : Shell :=
  calls.foldl JobCall.run s

/-- A run of the job list that makes `nextjid` wrap while job 1 is live:
sixteen background jobs with PIDs 1..16 fill the table (job IDs 1..16), the
jobs with PIDs 2 and 3 are deleted, and two more jobs are added. -/
def wrapCalls : List JobCall :=
  (List.range 16).map (fun n => JobCall.add ((n : Int) + 1) BG "/bin/sleep 9 &\n")
    ++ [JobCall.del 2, JobCall.del 3,
        JobCall.add 17 BG "/bin/sleep 9 &\n", JobCall.add 18 BG "/bin/sleep 9 &\n"]

/-- The table after sixteen background jobs with PIDs 100..115 have been
added to the initial table. -/
def fullShell : Shell :=
  runCalls initShell ((List.range 16).map (fun n => JobCall.add ((n : Int) + 100) BG "/bin/sleep 9 &\n"))

/-- The free sentinel: the contents `clearjob` gives a slot. -/
def freeJob : job_t := { pid := 0, jid := 0, state := UNDEF, cmdline := "" }

/-- A well-formed slot: either the free sentinel, or an occupied slot whose
PID and job ID are positive. -/
def SlotOk (j : job_t) : Prop := j = freeJob ∨ (1 ≤ j.pid ∧ 1 ≤ j.jid)

instance (j : job_t) : Decidable (SlotOk j) := by
  unfold SlotOk
  infer_instance

/-- The representation invariant of the job list: every slot is well
formed and `nextjid` is positive. `initjobs` establishes it;
`sigtstp_handler` and `do_bgfg` keep it; `addjob` (of a command line that
fits the record), `deletejob` and `sigint_handler` keep it as long as the
job IDs stay below `INT_MAX`, which they do for the first `2^31 - 2` calls on
the job list. -/
def Shell.Inv (s : Shell) : Prop := (∀ i, SlotOk (s.jobs i)) ∧ 1 ≤ s.nextjid

instance (s : Shell) : Decidable s.Inv := by
  unfold Shell.Inv
  infer_instance

/-- The invariant together with a bound `B` on the job IDs in use: no slot
carries a job ID above `B` and `nextjid` is at most `B + 1`. -/
def Shell.InvBelow (s : Shell) (B : Int) : Prop :=
  s.Inv ∧ (∀ i, (s.jobs i).jid ≤ B) ∧ s.nextjid ≤ B + 1

/-- The round trip of `addjob` and `getjobpid`: some slot `k` was free
before the call and is the only slot the call changed, `getjobpid` with the
same PID returns `k`, and slot `k` holds the PID, state and command text
passed to `addjob`. -/
def AddThenFind (s : Shell) (pid state : Int) (cmdline : String) : Prop :=
  ∃ k : Fin MAXJOBS,
    (s.jobs k).pid = 0 ∧
    (∀ i, i ≠ k → (addjob s pid state cmdline).2.1.jobs i = s.jobs i) ∧
    getjobpid (addjob s pid state cmdline).2.1.jobs pid = some k ∧
    ((addjob s pid state cmdline).2.1.jobs k).pid = pid ∧
    ((addjob s pid state cmdline).2.1.jobs k).state = state ∧
    ((addjob s pid state cmdline).2.1.jobs k).cmdline = cmdline

instance (s : Shell) (pid state : Int) (cmdline : String) :
    Decidable (AddThenFind s pid state cmdline) := by
  unfold AddThenFind
  infer_instance

/-- The initial table after one background job with PID 5 was added. -/
def onePid5 : Shell := (addjob initShell 5 BG "/bin/ls &\n").2.1

/-- The initial table after one foreground job with PID 100 was added. -/
def oneFg : Shell := (addjob initShell 100 FG "/bin/sleep 10\n").2.1

/-- The table `onePid5` after a foreground job with the same PID 5 was
added: slot 0 holds PID 5 in state `BG`, slot 1 holds PID 5 in state `FG`. -/
def dupFg : Shell := (addjob onePid5 5 FG "/bin/ps\n").2.1

/-- The initial table after one foreground job with PID 300 was added. -/
def fg300 : Shell := (addjob initShell 300 FG "/bin/sleep 10\n").2.1

/-- The initial table after one background job with PID 122 was added. -/
def oneBg : Shell := (addjob initShell 122 BG "/bin/sleep 100 &\n").2.1

/-- The table with a stopped job 5: background jobs with PIDs 296..299 and
a foreground job with PID 300 are added to the initial table, then
`sigtstp_handler` runs and stops the foreground job. -/
def stopped5 : Shell :=
  match sigtstp_handler (runCalls initShell
      [JobCall.add 296 BG "/bin/sleep 9 &\n", JobCall.add 297 BG "/bin/sleep 9 &\n",
       JobCall.add 298 BG "/bin/sleep 9 &\n", JobCall.add 299 BG "/bin/sleep 9 &\n",
       JobCall.add 300 FG "/bin/sleep 100\n"]) with
  | some r => r.1
  | none => initShell

/-! ## The table scan -/

/-- The scan finds nothing exactly when no slot satisfies the test. -/
theorem firstSlot_eq_none_iff (p : job_t → Bool) (jobs : Fin MAXJOBS → job_t) :
    firstSlot p jobs = none ↔ ∀ i, p (jobs i) = false := by
  unfold firstSlot
  rw [List.find?_eq_none]
  constructor
  · intro h i
    simpa using h i (List.mem_finRange i)
  · intro h i _
    simp [h i]

/-- The scan returns the lowest index whose slot satisfies the test. -/
theorem firstSlot_some_spec (p : job_t → Bool) (jobs : Fin MAXJOBS → job_t)
    (i : Fin MAXJOBS) (h : firstSlot p jobs = some i) :
    p (jobs i) = true ∧ ∀ k, k < i → p (jobs k) = false := by
  unfold firstSlot at h
  rw [List.find?_eq_some] at h
  obtain ⟨hp, front, back, hsplit, hfront⟩ := h
  refine ⟨hp, ?_⟩
  intro k hk
  have hsorted := List.pairwise_lt_finRange MAXJOBS
  rw [hsplit, List.pairwise_append] at hsorted
  have hmem : k ∈ front ++ i :: back := hsplit ▸ List.mem_finRange k
  rcases List.mem_append.mp hmem with hf | hb
  · simpa using hfront k hf
  · rcases List.mem_cons.mp hb with heq | hb2
    · exact absurd heq (ne_of_lt hk)
    · have hlt : i < k := (List.pairwise_cons.mp hsorted.2.1).1 k hb2
      exact absurd hk (not_lt_of_lt hlt)

/-- A slot that satisfies the test, with none before it doing so, is the
one the scan returns. -/
theorem firstSlot_eq_some_iff (p : job_t → Bool) (jobs : Fin MAXJOBS → job_t)
    (i : Fin MAXJOBS) :
    firstSlot p jobs = some i ↔ p (jobs i) = true ∧ ∀ k, k < i → p (jobs k) = false := by
  constructor
  · exact firstSlot_some_spec p jobs i
  · rintro ⟨hp, hlow⟩
    cases hres : firstSlot p jobs with
    | none =>
      have := (firstSlot_eq_none_iff p jobs).mp hres i
      rw [hp] at this
      exact absurd this (by decide)
    | some j =>
      obtain ⟨hj, hjlow⟩ := firstSlot_some_spec p jobs j hres
      rcases lt_trichotomy j i with hlt | heq | hgt
      · have := hlow j hlt
        rw [hj] at this
        exact absurd this (by decide)
      · rw [heq]
      · have := hjlow i hgt
        rw [hp] at this
        exact absurd this (by decide)

set_option maxRecDepth 100000 in
/-- C1 (the code departs from it): after the calls of `wrapCalls`, made on
the initial table, the occupied slots 0 and 2 both carry job ID 1. The
sixteenth `addjob` and the `addjob` of PID 17 each reset `nextjid` to 1
while job 1 is still live, so the `addjob` of PID 18 hands out 1 again. -/
theorem addjob_wrap_reuses_live_jid :
    ((runCalls initShell wrapCalls).jobs 0).pid = 1 ∧
    ((runCalls initShell wrapCalls).jobs 2).pid = 18 ∧
    ((runCalls initShell wrapCalls).jobs 0).jid = 1 ∧
    ((runCalls initShell wrapCalls).jobs 2).jid = 1 := by
  decide

/-- C2 (the code departs from it): the two calls `addjob(jobs, pid1, FG,
cmdline); addjob(jobs, pid2, FG, cmdline);` that `eval` makes for a command
line with a pipe both succeed on the initial table and leave slots 0 and 1
both in state `FG`. -/
theorem pipeline_adds_two_foreground_jobs :
    (addjob initShell 100 FG "/bin/ls ").1 = 1 ∧
    (addjob (addjob initShell 100 FG "/bin/ls ").2.1 101 FG "/bin/ls ").1 = 1 ∧
    ((addjob (addjob initShell 100 FG "/bin/ls ").2.1 101 FG "/bin/ls ").2.1.jobs 0).state = FG ∧
    ((addjob (addjob initShell 100 FG "/bin/ls ").2.1 101 FG "/bin/ls ").2.1.jobs 1).state = FG := by
  decide

/-! ## 32-bit arithmetic -/

/-- The 32-bit arithmetic leaves a value of the `int` range as it is. -/
theorem wrapInt_of_range (x : Int) (hlo : -2147483648 ≤ x) (hhi : x < 2147483648) :
    wrapInt x = x := by
  unfold wrapInt
  omega

/-! ## addjob -/

/-- The return value of `addjob` is 0 or 1. -/
theorem addjob_ret (s : Shell) (pid state : Int) (cmdline : String) :
    (addjob s pid state cmdline).1 = 0 ∨ (addjob s pid state cmdline).1 = 1 := by
  unfold addjob
  split
  · exact Or.inl rfl
  · split
    · exact Or.inr rfl
    · exact Or.inl rfl

/-- A call of `addjob` with `pid >= 1` that finds a free slot returns 1. -/
theorem addjob_success_ret (s : Shell) (pid state : Int) (cmdline : String)
    (hpid : ¬ pid < 1) (i : Fin MAXJOBS)
    (hi : firstSlot (fun j => j.pid == 0) s.jobs = some i) :
    (addjob s pid state cmdline).1 = 1 := by
  unfold addjob
  rw [if_neg hpid, hi]

/-- What a successful `addjob` of a command line that fits the record does:
it fills the first slot with `pid == 0` with the arguments and the current
`nextjid`, and advances `nextjid` in 32 bits, back to 1 past `MAXJOBS`. -/
theorem addjob_success (s : Shell) (pid state : Int) (cmdline : String)
    (_hfits : cmdlineFits cmdline)
    (hpid : ¬ pid < 1) (i : Fin MAXJOBS)
    (hi : firstSlot (fun j => j.pid == 0) s.jobs = some i) :
    (addjob s pid state cmdline).1 = 1 ∧
    (addjob s pid state cmdline).2.1.jobs =
      Function.update s.jobs i
        { pid := pid, jid := s.nextjid, state := state, cmdline := cmdline } ∧
    (addjob s pid state cmdline).2.1.nextjid =
      (if wrapInt (s.nextjid + 1) > MAXJOBS then 1 else wrapInt (s.nextjid + 1)) ∧
    (addjob s pid state cmdline).2.1.verbose = s.verbose := by
  unfold addjob
  rw [if_neg hpid, hi]
  exact ⟨rfl, rfl, rfl, rfl⟩

/-- `addjob` with `pid < 1` returns 0 at once. -/
theorem addjob_of_bad_pid (s : Shell) (pid state : Int) (cmdline : String) (hpid : pid < 1) :
    addjob s pid state cmdline = (0, s, []) := by
  unfold addjob
  rw [if_pos hpid]

/-- `addjob` on a table without a free slot prints the diagnostic and
returns 0. -/
theorem addjob_of_full (s : Shell) (pid state : Int) (cmdline : String) (hpid : ¬ pid < 1)
    (hfull : firstSlot (fun j => j.pid == 0) s.jobs = none) :
    addjob s pid state cmdline = (0, s, [Event.printf "Tried to create too many jobs\n"]) := by
  unfold addjob
  rw [if_neg hpid, hfull]

/-- A call of `addjob` that returns 1 had `pid >= 1` and found a free slot. -/
theorem addjob_ret_one (s : Shell) (pid state : Int) (cmdline : String)
    (hadd : (addjob s pid state cmdline).1 = 1) :
    ¬ pid < 1 ∧ ∃ k, firstSlot (fun j => j.pid == 0) s.jobs = some k := by
  by_cases hpid : pid < 1
  · rw [addjob_of_bad_pid s pid state cmdline hpid] at hadd
    exact absurd hadd (by simp)
  · refine ⟨hpid, ?_⟩
    cases hfree : firstSlot (fun j => j.pid == 0) s.jobs with
    | none =>
      rw [addjob_of_full s pid state cmdline hpid hfree] at hadd
      exact absurd hadd (by simp)
    | some k => exact ⟨k, rfl⟩

/-- C3: `addjob` returns 0 exactly when `pid < 1` or no slot has `pid == 0`;
its return value is otherwise 1; and whenever it returns 0 the globals,
so each of the sixteen slots and `nextjid`, are as before the call. -/
theorem addjob_fails_iff (s : Shell) (pid state : Int) (cmdline : String) :
    ((addjob s pid state cmdline).1 = 0 ↔ (pid < 1 ∨ ∀ i, (s.jobs i).pid ≠ 0)) ∧
    ((addjob s pid state cmdline).1 ≠ 0 → (addjob s pid state cmdline).1 = 1) ∧
    ((addjob s pid state cmdline).1 = 0 →
      (∀ i, (addjob s pid state cmdline).2.1.jobs i = s.jobs i) ∧
      (addjob s pid state cmdline).2.1.nextjid = s.nextjid ∧
      (addjob s pid state cmdline).2.1 = s) := by
  by_cases hpid : pid < 1
  · rw [addjob_of_bad_pid s pid state cmdline hpid]
    simp [hpid]
  · cases hfree : firstSlot (fun j => j.pid == 0) s.jobs with
    | none =>
      have hall := (firstSlot_eq_none_iff _ _).mp hfree
      rw [addjob_of_full s pid state cmdline hpid hfree]
      refine ⟨⟨fun _ => Or.inr ?_, fun _ => rfl⟩, ?_, ?_⟩
      · intro i
        simpa using hall i
      · intro hne
        exact absurd rfl hne
      · intro _
        exact ⟨fun _ => rfl, rfl, rfl⟩
    | some i =>
      have hret := addjob_success_ret s pid state cmdline hpid i hfree
      have hi := (firstSlot_some_spec _ _ i hfree).1
      rw [hret]
      refine ⟨⟨fun h => absurd h (by decide), ?_⟩, fun _ => rfl, fun h => absurd h (by decide)⟩
      rintro (h | h)
      · exact absurd h hpid
      · exact absurd (by simpa using hi) (h i)

set_option maxRecDepth 100000 in
/-- C3 at the full table: a seventeenth `addjob`, of PID 116, returns 0 and
leaves the sixteen records and `nextjid` as they were. -/
theorem addjob_fails_iff_witness :
    (addjob fullShell 116 BG "/bin/ls &\n").1 = 0 ∧
    (∀ i, (addjob fullShell 116 BG "/bin/ls &\n").2.1.jobs i = fullShell.jobs i) ∧
    (addjob fullShell 116 BG "/bin/ls &\n").2.1.nextjid = fullShell.nextjid :=
  have h := addjob_fails_iff fullShell 116 BG "/bin/ls &\n"
  have h0 : (addjob fullShell 116 BG "/bin/ls &\n").1 = 0 :=
    h.1.mpr (Or.inr (by decide))
  ⟨h0, (h.2.2 h0).1, (h.2.2 h0).2.1⟩

set_option maxRecDepth 100000 in
/-- C4 (as stated, fails): on the table `onePid5`, whose slot 0 holds PID 5,
`addjob` of PID 5 again succeeds and fills slot 1, but `getjobpid` of PID 5
returns slot 0 with the older command text; the round trip does not hold. -/
theorem addjob_getjobpid_duplicate_pid :
    (addjob onePid5 5 BG "/bin/ps &\n").1 = 1 ∧
    (onePid5.jobs 1).pid = 0 ∧
    (addjob onePid5 5 BG "/bin/ps &\n").2.1.jobs 1 =
      { pid := 5, jid := 2, state := BG, cmdline := "/bin/ps &\n" } ∧
    getjobpid (addjob onePid5 5 BG "/bin/ps &\n").2.1.jobs 5 = some 0 ∧
    ((addjob onePid5 5 BG "/bin/ps &\n").2.1.jobs 0).cmdline = "/bin/ls &\n" ∧
    ¬ AddThenFind onePid5 5 BG "/bin/ps &\n" := by
  decide

/-- C4 (amended): when `addjob` succeeds for a command line that fits the
record (fewer than `MAXLINE` bytes) and no slot before the first free slot
already holds `pid`, an immediately following `getjobpid` with the same
`pid` returns the slot `addjob` just filled, and that slot holds the PID,
state and command text passed to `addjob`. The bound on the command line is
the condition under which `strcpy` stays inside the record. -/
theorem addjob_getjobpid_roundtrip (s : Shell) (pid state : Int) (cmdline : String)
    (hfits : cmdlineFits cmdline)
    (hadd : (addjob s pid state cmdline).1 = 1)
    (hfresh : ∀ k, firstSlot (fun j => j.pid == 0) s.jobs = some k →
      ∀ i, i < k → (s.jobs i).pid ≠ pid) :
    AddThenFind s pid state cmdline := by
  obtain ⟨hpid, k, hfree⟩ := addjob_ret_one s pid state cmdline hadd
  obtain ⟨-, hjobs, -, -⟩ := addjob_success s pid state cmdline hfits hpid k hfree
  have hk := (firstSlot_some_spec _ _ k hfree).1
  refine ⟨k, by simpa using hk, ?_, ?_, ?_, ?_, ?_⟩
  · intro i hik
    rw [hjobs, Function.update_noteq hik]
  · rw [hjobs]
    unfold getjobpid
    rw [if_neg hpid, firstSlot_eq_some_iff]
    refine ⟨by simp, ?_⟩
    intro i hik
    rw [Function.update_noteq (ne_of_lt hik)]
    simpa using hfresh k hfree i hik
  · rw [hjobs]; simp
  · rw [hjobs]; simp
  · rw [hjobs]; simp

set_option maxRecDepth 100000 in
/-- C4 (amended) on the table `onePid5`: an `addjob` of the new PID 6 is
found again by `getjobpid`. -/
theorem addjob_getjobpid_roundtrip_witness :
    cmdlineFits "/bin/ps\n" ∧
    (addjob onePid5 6 FG "/bin/ps\n").1 = 1 ∧ AddThenFind onePid5 6 FG "/bin/ps\n" :=
  ⟨by decide, by decide,
    addjob_getjobpid_roundtrip onePid5 6 FG "/bin/ps\n" (by decide) (by decide) (by decide)⟩

/-! ## maxjid -/

/-- The fold of `maxjid` from a running maximum `m`: the result is at least
`m` and at least every job ID met, and it is `m` or one of those job IDs. -/
theorem maxjid_fold (jobs : Fin MAXJOBS → job_t) (l : List (Fin MAXJOBS)) (m : Int) :
    m ≤ l.foldl (fun max i => if (jobs i).jid > max then (jobs i).jid else max) m ∧
    (∀ i ∈ l, (jobs i).jid ≤
      l.foldl (fun max i => if (jobs i).jid > max then (jobs i).jid else max) m) ∧
    (l.foldl (fun max i => if (jobs i).jid > max then (jobs i).jid else max) m = m ∨
      ∃ i ∈ l, l.foldl (fun max i => if (jobs i).jid > max then (jobs i).jid else max) m
        = (jobs i).jid) := by
  induction l generalizing m with
  | nil => simp
  | cons a rest ih =>
    simp only [List.foldl_cons, List.mem_cons]
    obtain ⟨h1, h2, h3⟩ := ih (if (jobs a).jid > m then (jobs a).jid else m)
    have hstep : m ≤ (if (jobs a).jid > m then (jobs a).jid else m) ∧
        (jobs a).jid ≤ (if (jobs a).jid > m then (jobs a).jid else m) := by
      split <;> omega
    refine ⟨le_trans hstep.1 h1, ?_, ?_⟩
    · rintro i (rfl | hi)
      · exact le_trans hstep.2 h1
      · exact h2 i hi
    · rcases h3 with h3 | ⟨i, hi, h3⟩
      · by_cases hgt : (jobs a).jid > m
        · right
          refine ⟨a, Or.inl rfl, ?_⟩
          rw [h3, if_pos hgt]
        · left
          rw [h3, if_neg hgt]
      · exact Or.inr ⟨i, Or.inr hi, h3⟩

/-- `maxjid` is never negative. -/
theorem maxjid_nonneg (jobs : Fin MAXJOBS → job_t) : 0 ≤ maxjid jobs :=
  (maxjid_fold jobs (List.finRange MAXJOBS) 0).1

/-- `maxjid` is 0 or the job ID of some slot. -/
theorem maxjid_attained (jobs : Fin MAXJOBS → job_t) :
    maxjid jobs = 0 ∨ ∃ i, maxjid jobs = (jobs i).jid := by
  rcases (maxjid_fold jobs (List.finRange MAXJOBS) 0).2.2 with h | ⟨i, -, h⟩
  · exact Or.inl h
  · exact Or.inr ⟨i, h⟩

/-! ## The representation invariant -/

/-- `clearjob` yields the free sentinel whatever the slot held. -/
theorem clearjob_eq (job : job_t) : clearjob job = freeJob := rfl

/-- The table `main` starts from satisfies the invariant. -/
theorem initShell_inv : initShell.Inv := by
  refine ⟨fun i => Or.inl rfl, ?_⟩
  decide

/-- A well-formed slot has a job ID that is not negative. -/
theorem SlotOk.jid_nonneg {j : job_t} (h : SlotOk j) : 0 ≤ j.jid := by
  rcases h with h | ⟨-, h⟩
  · rw [h]
    decide
  · omega

/-- After `addjob` of a command line that fits the record, on a well-formed
table, every slot is well formed. -/
theorem addjob_slotOk (s : Shell) (pid state : Int) (cmdline : String)
    (hfits : cmdlineFits cmdline) (h : s.Inv)
    (i : Fin MAXJOBS) : SlotOk ((addjob s pid state cmdline).2.1.jobs i) := by
  by_cases hpid : pid < 1
  · rw [addjob_of_bad_pid s pid state cmdline hpid]
    exact h.1 i
  · cases hfree : firstSlot (fun j => j.pid == 0) s.jobs with
    | none =>
      rw [addjob_of_full s pid state cmdline hpid hfree]
      exact h.1 i
    | some k =>
      obtain ⟨-, hjobs, -, -⟩ := addjob_success s pid state cmdline hfits hpid k hfree
      rw [hjobs]
      by_cases hik : i = k
      · subst hik
        rw [Function.update_same]
        exact Or.inr ⟨by simpa using hpid, h.2⟩
      · rw [Function.update_noteq hik]
        exact h.1 i

/-- After `addjob` of a command line that fits the record, `nextjid` is 1
or one more than before, when it was positive and below `INT_MAX` before. -/
theorem addjob_nextjid (s : Shell) (pid state : Int) (cmdline : String)
    (hfits : cmdlineFits cmdline) (hlo : 1 ≤ s.nextjid) (hhi : s.nextjid < 2147483647) :
    1 ≤ (addjob s pid state cmdline).2.1.nextjid ∧
    ((addjob s pid state cmdline).2.1.nextjid ≤ 1 ∨
      (addjob s pid state cmdline).2.1.nextjid ≤ s.nextjid + 1) := by
  by_cases hpid : pid < 1
  · rw [addjob_of_bad_pid s pid state cmdline hpid]
    show 1 ≤ s.nextjid ∧ (s.nextjid ≤ 1 ∨ s.nextjid ≤ s.nextjid + 1)
    exact ⟨hlo, Or.inr (by omega)⟩
  · cases hfree : firstSlot (fun j => j.pid == 0) s.jobs with
    | none =>
      rw [addjob_of_full s pid state cmdline hpid hfree]
      show 1 ≤ s.nextjid ∧ (s.nextjid ≤ 1 ∨ s.nextjid ≤ s.nextjid + 1)
      exact ⟨hlo, Or.inr (by omega)⟩
    | some k =>
      obtain ⟨-, -, hnext, -⟩ := addjob_success s pid state cmdline hfits hpid k hfree
      rw [hnext, wrapInt_of_range (s.nextjid + 1) (by omega) (by omega)]
      split
      · exact ⟨by decide, Or.inl (by decide)⟩
      · exact ⟨by omega, Or.inr (by omega)⟩

/-- `addjob` of a command line that fits the record keeps the invariant
while `nextjid` is below `INT_MAX`. -/
theorem addjob_inv (s : Shell) (pid state : Int) (cmdline : String)
    (hfits : cmdlineFits cmdline) (h : s.Inv)
    (hnext : s.nextjid < 2147483647) : (addjob s pid state cmdline).2.1.Inv :=
  ⟨addjob_slotOk s pid state cmdline hfits h,
    (addjob_nextjid s pid state cmdline hfits h.2 hnext).1⟩

/-- What a successful `deletejob` does: it clears the first slot holding
`pid` and sets `nextjid` to `maxjid(jobs)+1` of the new table, computed in
32 bits. -/
theorem deletejob_success (s : Shell) (pid : Int) (hpid : ¬ pid < 1) (k : Fin MAXJOBS)
    (hk : firstSlot (fun j => j.pid == pid) s.jobs = some k) :
    (deletejob s pid).1 = 1 ∧
    (deletejob s pid).2.jobs = Function.update s.jobs k freeJob ∧
    (deletejob s pid).2.nextjid = wrapInt (maxjid (Function.update s.jobs k freeJob) + 1) ∧
    (deletejob s pid).2.verbose = s.verbose := by
  unfold deletejob
  rw [if_neg hpid, hk]
  exact ⟨rfl, rfl, rfl, rfl⟩

/-- A `deletejob` that finds nothing returns 0 and leaves the globals. -/
theorem deletejob_failure (s : Shell) (pid : Int)
    (h : pid < 1 ∨ firstSlot (fun j => j.pid == pid) s.jobs = none) :
    deletejob s pid = (0, s) := by
  unfold deletejob
  by_cases hpid : pid < 1
  · rw [if_pos hpid]
  · rcases h with h | h
    · exact absurd h hpid
    · rw [if_neg hpid, h]

/-- Every slot after `deletejob` is the free sentinel or as it was. -/
theorem deletejob_slot (s : Shell) (pid : Int) (i : Fin MAXJOBS) :
    (deletejob s pid).2.jobs i = freeJob ∨ (deletejob s pid).2.jobs i = s.jobs i := by
  by_cases hpid : pid < 1
  · rw [deletejob_failure s pid (Or.inl hpid)]
    exact Or.inr rfl
  · cases hfind : firstSlot (fun j => j.pid == pid) s.jobs with
    | none =>
      rw [deletejob_failure s pid (Or.inr hfind)]
      exact Or.inr rfl
    | some k =>
      obtain ⟨-, hjobs, -, -⟩ := deletejob_success s pid hpid k hfind
      rw [hjobs]
      by_cases hik : i = k
      · subst hik
        rw [Function.update_same]
        exact Or.inl rfl
      · rw [Function.update_noteq hik]
        exact Or.inr rfl

/-- After `deletejob` on a well-formed table every slot is well formed. -/
theorem deletejob_slotOk (s : Shell) (pid : Int) (h : s.Inv) (i : Fin MAXJOBS) :
    SlotOk ((deletejob s pid).2.jobs i) := by
  rcases deletejob_slot s pid i with hfree | hsame
  · rw [hfree]
    exact Or.inl rfl
  · rw [hsame]
    exact h.1 i

/-- After `deletejob`, `nextjid` is as before or is `maxjid(jobs)+1` of the
new table, when every job ID left in the table is below `INT_MAX`. -/
theorem deletejob_nextjid (s : Shell) (pid : Int)
    (hrange : ∀ i, ((deletejob s pid).2.jobs i).jid < 2147483647) :
    (deletejob s pid).2.nextjid = s.nextjid ∨
    (deletejob s pid).2.nextjid = maxjid (deletejob s pid).2.jobs + 1 := by
  by_cases hpid : pid < 1
  · rw [deletejob_failure s pid (Or.inl hpid)]
    exact Or.inl rfl
  · cases hfind : firstSlot (fun j => j.pid == pid) s.jobs with
    | none =>
      rw [deletejob_failure s pid (Or.inr hfind)]
      exact Or.inl rfl
    | some k =>
      obtain ⟨-, hjobs, hnext, -⟩ := deletejob_success s pid hpid k hfind
      right
      rw [hnext, hjobs]
      have hlo := maxjid_nonneg (Function.update s.jobs k freeJob)
      have hhi : maxjid (Function.update s.jobs k freeJob) < 2147483647 := by
        rcases maxjid_attained (Function.update s.jobs k freeJob) with h0 | ⟨m, hm⟩
        · omega
        · have := hrange m
          rw [hjobs] at this
          omega
      exact wrapInt_of_range _ (by omega) (by omega)

/-- `deletejob` keeps the invariant while the job IDs are below `INT_MAX`. -/
theorem deletejob_inv (s : Shell) (pid : Int) (h : s.Inv)
    (hjid : ∀ i, (s.jobs i).jid < 2147483647) : (deletejob s pid).2.Inv := by
  have hrange : ∀ i, ((deletejob s pid).2.jobs i).jid < 2147483647 := by
    intro i
    rcases deletejob_slot s pid i with hfree | hsame
    · rw [hfree]
      decide
    · rw [hsame]
      exact hjid i
  refine ⟨deletejob_slotOk s pid h, ?_⟩
  rcases deletejob_nextjid s pid hrange with hsame | hmax
  · rw [hsame]
    exact h.2
  · rw [hmax]
    have := maxjid_nonneg (deletejob s pid).2.jobs
    omega

/-- The initial table has no job ID above 0. -/
theorem initShell_invBelow : initShell.InvBelow 0 := by
  refine ⟨initShell_inv, fun i => ?_, ?_⟩
  · exact le_of_eq rfl
  · decide

/-- One call on the job list, with a command line that fits the record,
raises the bound on the job IDs by at most one, as long as the bound stays
below `INT_MAX`. -/
theorem run_invBelow (s : Shell) (c : JobCall) (B : Int) (hc : c.fits) (h : s.InvBelow B)
    (hB : B + 1 < 2147483647) : (JobCall.run s c).InvBelow (B + 1) := by
  obtain ⟨hinv, hjid, hnext⟩ := h
  have hB0 : 0 ≤ B := le_trans (hinv.1 0).jid_nonneg (hjid 0)
  cases c with
  | add pid state cmdline =>
    have hfits : cmdlineFits cmdline := hc
    show (addjob s pid state cmdline).2.1.InvBelow (B + 1)
    have hn := addjob_nextjid s pid state cmdline hfits hinv.2 (by omega)
    refine ⟨⟨addjob_slotOk s pid state cmdline hfits hinv, hn.1⟩, ?_, ?_⟩
    · intro i
      by_cases hpid : pid < 1
      · rw [addjob_of_bad_pid s pid state cmdline hpid]
        show (s.jobs i).jid ≤ B + 1
        have := hjid i
        omega
      · cases hfree : firstSlot (fun j => j.pid == 0) s.jobs with
        | none =>
          rw [addjob_of_full s pid state cmdline hpid hfree]
          show (s.jobs i).jid ≤ B + 1
          have := hjid i
          omega
        | some k =>
          obtain ⟨-, hjobs, -, -⟩ := addjob_success s pid state cmdline hfits hpid k hfree
          rw [hjobs]
          by_cases hik : i = k
          · subst hik
            rw [Function.update_same]
            exact hnext
          · rw [Function.update_noteq hik]
            have := hjid i
            omega
    · rcases hn.2 with h1 | h1 <;> omega
  | del pid =>
    show (deletejob s pid).2.InvBelow (B + 1)
    have hle : ∀ i, ((deletejob s pid).2.jobs i).jid ≤ B := by
      intro i
      rcases deletejob_slot s pid i with hfree | hsame
      · rw [hfree]
        exact hB0
      · rw [hsame]
        exact hjid i
    have hrange : ∀ i, ((deletejob s pid).2.jobs i).jid < 2147483647 := by
      intro i
      have := hle i
      omega
    have hmaxle : maxjid (deletejob s pid).2.jobs ≤ B := by
      rcases maxjid_attained (deletejob s pid).2.jobs with h0 | ⟨m, hm⟩
      · omega
      · rw [hm]
        exact hle m
    have hmax0 := maxjid_nonneg (deletejob s pid).2.jobs
    refine ⟨⟨deletejob_slotOk s pid hinv, ?_⟩, fun i => by have := hle i; omega, ?_⟩
    · rcases deletejob_nextjid s pid hrange with hsame | hmax
      · rw [hsame]
        exact hinv.2
      · omega
    · rcases deletejob_nextjid s pid hrange with hsame | hmax <;> omega

/-- A sequence of calls on the job list, with command lines that fit the
record, raises the bound on the job IDs by at most its length, as long as
that stays below `INT_MAX`. -/
theorem runCalls_invBelow (calls : List JobCall) (s : Shell) (B : Int)
    (hfits : ∀ c ∈ calls, c.fits) (h : s.InvBelow B)
    (hB : B + calls.length < 2147483647) :
    (runCalls s calls).InvBelow (B + calls.length) := by
  induction calls generalizing s B with
  | nil =>
    simpa using h
  | cons c rest ih =>
    simp only [List.length_cons, Nat.cast_add, Nat.cast_one] at hB ⊢
    have hstep := run_invBelow s c B (hfits c (List.mem_cons_self c rest)) h (by omega)
    have hrest := ih (JobCall.run s c) (B + 1)
      (fun d hd => hfits d (List.mem_cons_of_mem c hd)) hstep (by omega)
    have heq : B + 1 + (rest.length : Int) = B + ((rest.length : Int) + 1) := by omega
    rw [heq] at hrest
    exact hrest

/-- Every table reached from the initial one by fewer than `INT_MAX`
calls of `addjob` and `deletejob`, with command lines that fit the record,
is well formed. -/
theorem runCalls_inv (calls : List JobCall) (hfits : ∀ c ∈ calls, c.fits)
    (hlen : (calls.length : Int) < 2147483647) :
    (runCalls initShell calls).Inv :=
  (runCalls_invBelow calls initShell 0 hfits initShell_invBelow (by omega)).1

/-! ## deletejob -/

/-- With no slot in state `FG`, `fgpid` returns 0. -/
theorem fgpid_of_no_fg (jobs : Fin MAXJOBS → job_t) (h : ∀ i, (jobs i).state ≠ FG) :
    fgpid jobs = 0 := by
  unfold fgpid
  rw [(firstSlot_eq_none_iff _ _).mpr (fun i => by simpa using h i)]

/-- With no slot in state `FG`, `sigtstp_handler` looks up PID 0, gets NULL
and writes through it. -/
theorem sigtstp_handler_of_no_fg (s : Shell) (h : ∀ i, (s.jobs i).state ≠ FG) :
    sigtstp_handler s = none := by
  unfold sigtstp_handler
  simp only [fgpid_of_no_fg s.jobs h]
  have hnull : getjobpid s.jobs 0 = none := by
    unfold getjobpid
    rw [if_pos (by decide)]
  rw [hnull]

/-- C6 (the code departs from it): on the initial table no slot is in state
`FG`, `fgpid` returns 0, `getjobpid(jobs, 0)` returns NULL, and
`sigtstp_handler` faults on `JOB->state = ST` instead of returning. -/
theorem sigtstp_handler_null_deref :
    (∀ i, (initShell.jobs i).state ≠ FG) ∧
    fgpid initShell.jobs = 0 ∧
    getjobpid initShell.jobs 0 = none ∧
    sigtstp_handler initShell = none :=
  ⟨by decide, by decide, by decide, sigtstp_handler_of_no_fg initShell (by decide)⟩

/-- C7 (the code departs from it): on the table `oneFg` the foreground job
has job ID 1 and PID 100; `sigint_handler` prints the PID in the brackets,
`Job [100] (100) Terminated by signal 2`, because `jobID` is read from
`getjobpid(jobs, pid)->pid`. -/
theorem sigint_handler_prints_pid_as_jid :
    (oneFg.jobs 0).jid = 1 ∧ (oneFg.jobs 0).pid = 100 ∧ (oneFg.jobs 0).state = FG ∧
    fgpid oneFg.jobs = 100 ∧
    (sigint_handler oneFg).map Prod.snd =
      some [Event.printf "Job [100] (100) Terminated by signal 2\n"] := by
  decide

/-- C8 (the code departs from it): whatever the table, the calls
`sigint_handler` makes include no `kill`. -/
theorem sigint_handler_sends_no_signal (s : Shell) (r : Shell × List Event)
    (h : sigint_handler s = some r) (pid : Int) (sig : Signal) :
    Event.kill pid sig ∉ r.2 := by
  unfold sigint_handler at h
  simp only at h
  split at h
  · split at h
    · exact absurd h (by simp)
    · split at h
      · simp only [Option.some.injEq] at h
        rw [← h]
        simp
      · simp only [Option.some.injEq] at h
        rw [← h]
        simp
  · simp only [Option.some.injEq] at h
    rw [← h]
    simp

/-- C8 on the table `oneFg`, whose foreground job has PID 100: the handler
returns and its calls do not include `kill(-100, SIGINT)`. -/
theorem sigint_handler_sends_no_signal_witness :
    fgpid oneFg.jobs = 100 ∧
    ∃ r, sigint_handler oneFg = some r ∧ Event.kill (-100) Signal.SIGINT ∉ r.2 :=
  ⟨by decide,
    ((deletejob oneFg 100).2, [Event.printf "Job [100] (100) Terminated by signal 2\n"]),
    by rfl,
    sigint_handler_sends_no_signal oneFg _ (by rfl) (-100) Signal.SIGINT⟩

/-- What `sigtstp_handler` does once `getjobpid` finds the foreground PID:
it marks the slot found as stopped, sends `SIGTSTP` to the PID and prints
the notice. -/
theorem sigtstp_handler_found (s : Shell) (k : Fin MAXJOBS)
    (hk : getjobpid s.jobs (fgpid s.jobs) = some k) :
    sigtstp_handler s =
      some ({ s with jobs := Function.update s.jobs k { s.jobs k with state := ST } },
        [Event.kill (fgpid s.jobs) Signal.SIGTSTP,
         Event.printf ("Job [" ++ fmtInt (s.jobs k).jid ++ "] (" ++ fmtInt (fgpid s.jobs)
           ++ ") Terminated by signal 20\n")]) := by
  unfold sigtstp_handler
  simp only [hk, Function.update_same]

set_option maxRecDepth 100000 in
/-- C9 (as stated, fails): in the table `dupFg` slot 1 is the only slot in
state `FG` and holds PID 5, which slot 0 holds too. `sigtstp_handler` marks
slot 0 as stopped, slot 1 stays in state `FG`, and `fgpid` still returns 5. -/
theorem sigtstp_handler_duplicate_pid :
    (dupFg.jobs 1).state = FG ∧ (dupFg.jobs 1).pid = 5 ∧
    (∀ i, (dupFg.jobs i).state = FG → i = 1) ∧
    (dupFg.jobs 0).state = BG ∧
    (sigtstp_handler dupFg).map
        (fun r => ((r.1.jobs 0).state, (r.1.jobs 1).state, fgpid r.1.jobs)) =
      some (ST, FG, 5) := by
  decide

/-- C9 (amended): on a well-formed table, when slot `k` is the only slot in
state `FG` and no slot before `k` holds its PID `p`, `sigtstp_handler`
returns, sets the state of slot `k` to `ST` and leaves its PID, job ID and
command text, every other slot and `nextjid` as they were; afterwards
`getjobpid(p)` finds slot `k` and `fgpid` returns 0. -/
theorem sigtstp_handler_stops_fg (s : Shell) (k : Fin MAXJOBS) (hinv : s.Inv)
    (hfg : (s.jobs k).state = FG) (honly : ∀ i, (s.jobs i).state = FG → i = k)
    (hfirst : ∀ i, i < k → (s.jobs i).pid ≠ (s.jobs k).pid) :
    ∃ r, sigtstp_handler s = some r ∧
      r.1.jobs k = { pid := (s.jobs k).pid, jid := (s.jobs k).jid, state := ST,
                     cmdline := (s.jobs k).cmdline } ∧
      (∀ i, i ≠ k → r.1.jobs i = s.jobs i) ∧
      r.1.nextjid = s.nextjid ∧
      getjobpid r.1.jobs (s.jobs k).pid = some k ∧
      fgpid r.1.jobs = 0 := by
  have hscan : firstSlot (fun j => j.state == FG) s.jobs = some k := by
    rw [firstSlot_eq_some_iff]
    refine ⟨by simpa using hfg, ?_⟩
    intro i hik
    have hne : (s.jobs i).state ≠ FG := fun h => absurd (honly i h) (ne_of_lt hik)
    simpa using hne
  have hfgpid : fgpid s.jobs = (s.jobs k).pid := by
    unfold fgpid
    rw [hscan]
  have hpid : 1 ≤ (s.jobs k).pid := by
    rcases hinv.1 k with hfree | hpos
    · rw [hfree] at hfg
      exact absurd hfg (by decide)
    · exact hpos.1
  have hnlt : ¬ (s.jobs k).pid < 1 := by omega
  have hfind : getjobpid s.jobs (fgpid s.jobs) = some k := by
    rw [hfgpid]
    unfold getjobpid
    rw [if_neg hnlt, firstSlot_eq_some_iff]
    refine ⟨by simp, ?_⟩
    intro i hik
    simpa using hfirst i hik
  refine ⟨_, sigtstp_handler_found s k hfind, ?_, ?_, rfl, ?_, ?_⟩
  · simp only [Function.update_same]
  · intro i hik
    simp only [Function.update_noteq hik]
  · unfold getjobpid
    rw [if_neg hnlt, firstSlot_eq_some_iff]
    refine ⟨by simp, ?_⟩
    intro i hik
    simp only [Function.update_noteq (ne_of_lt hik)]
    simpa using hfirst i hik
  · apply fgpid_of_no_fg
    intro i
    by_cases hik : i = k
    · subst hik
      simp only [Function.update_same]
      decide
    · simp only [Function.update_noteq hik]
      exact fun h => hik (honly i h)

set_option maxRecDepth 100000 in
/-- C9 (amended) on the table `fg300`, a single foreground job with PID
300: after `sigtstp_handler` the job is stopped and still found, and there
is no foreground job. -/
theorem sigtstp_handler_stops_fg_witness :
    fg300.Inv ∧ (fg300.jobs 0).state = FG ∧ (fg300.jobs 0).pid = 300 ∧
    ∃ r, sigtstp_handler fg300 = some r ∧ (r.1.jobs 0).state = ST ∧
      getjobpid r.1.jobs 300 = some 0 ∧ fgpid r.1.jobs = 0 :=
  have h := sigtstp_handler_stops_fg fg300 0 (by decide) (by decide) (by decide) (by decide)
  ⟨by decide, by decide, by decide, h.choose, h.choose_spec.1,
    by rw [h.choose_spec.2.1],
    h.choose_spec.2.2.2.2.1, h.choose_spec.2.2.2.2.2⟩

/-! ## do_bgfg -/

set_option maxRecDepth 100000 in
/-- C10 (the code departs from it): on the table `oneBg`, whose only job
has job ID 1, PID 122 and state `BG`, the malformed target `5x` is read as
PID 122: `bg 5x` and `fg 5x` send `SIGCONT` to it, `fg 5x` moves it to state
`FG`, and neither prints the usage message. The targets `%` and `%1x` print
the not-found message instead of the usage message. -/
theorem do_bgfg_accepts_malformed_target :
    stringToInt "5x".toList = 122 ∧
    (oneBg.jobs 0).state = BG ∧
    (do_bgfg oneBg ["bg", "5x"]).map Prod.snd =
      some [Event.kill 122 Signal.SIGCONT, Event.printf "Job [1] (122) /bin/sleep 100 &\n"] ∧
    (do_bgfg oneBg ["fg", "5x"]).map (fun r => ((r.1.jobs 0).state, r.2)) =
      some (FG, [Event.kill 122 Signal.SIGCONT, Event.waitfg 122]) ∧
    (do_bgfg oneBg ["fg", "%"]).map Prod.snd =
      some [Event.printf "Could not find that JOB\n"] ∧
    (do_bgfg oneBg ["bg", "%1x"]).map Prod.snd =
      some [Event.printf "Could not find that JOB\n"] := by
  decide

/-! ## The invariant across the handlers and do_bgfg -/

/-- A slot returned by `getjobpid` holds the PID asked for, which is
positive. -/
theorem getjobpid_some_spec (jobs : Fin MAXJOBS → job_t) (pid : Int) (k : Fin MAXJOBS)
    (h : getjobpid jobs pid = some k) : 1 ≤ pid ∧ (jobs k).pid = pid := by
  unfold getjobpid at h
  split at h
  · exact absurd h (by simp)
  · refine ⟨by omega, ?_⟩
    simpa using (firstSlot_some_spec _ _ k h).1

/-- A slot returned by `getjobjid` holds the job ID asked for, which is
positive. -/
theorem getjobjid_some_spec (jobs : Fin MAXJOBS → job_t) (jid : Int) (k : Fin MAXJOBS)
    (h : getjobjid jobs jid = some k) : 1 ≤ jid ∧ (jobs k).jid = jid := by
  unfold getjobjid at h
  split at h
  · exact absurd h (by simp)
  · refine ⟨by omega, ?_⟩
    simpa using (firstSlot_some_spec _ _ k h).1

/-- Writing a new state into a slot that is not the free sentinel keeps the
invariant. -/
theorem setState_inv (s : Shell) (k : Fin MAXJOBS) (st : Int) (h : s.Inv)
    (hocc : s.jobs k ≠ freeJob) :
    Shell.Inv { s with jobs := Function.update s.jobs k { s.jobs k with state := st } } := by
  refine ⟨?_, h.2⟩
  intro i
  by_cases hik : i = k
  · subst hik
    simp only [Function.update_same]
    rcases h.1 i with hfree | hpos
    · exact absurd hfree hocc
    · exact Or.inr hpos
  · simp only [Function.update_noteq hik]
    exact h.1 i

/-- `sigint_handler` keeps the invariant while the job IDs are below
`INT_MAX`. -/
theorem sigint_handler_inv (s : Shell) (r : Shell × List Event) (h : s.Inv)
    (hjid : ∀ i, (s.jobs i).jid < 2147483647)
    (hr : sigint_handler s = some r) : r.1.Inv := by
  unfold sigint_handler at hr
  simp only at hr
  split at hr
  · split at hr
    · exact absurd hr (by simp)
    · split at hr
      · simp only [Option.some.injEq] at hr
        rw [← hr]
        exact deletejob_inv s _ h hjid
      · simp only [Option.some.injEq] at hr
        rw [← hr]
        exact deletejob_inv s _ h hjid
  · simp only [Option.some.injEq] at hr
    rw [← hr]
    exact h

/-- `sigtstp_handler` keeps the invariant. -/
theorem sigtstp_handler_inv (s : Shell) (r : Shell × List Event) (h : s.Inv)
    (hr : sigtstp_handler s = some r) : r.1.Inv := by
  cases hfind : getjobpid s.jobs (fgpid s.jobs) with
  | none =>
    unfold sigtstp_handler at hr
    simp only [hfind] at hr
    exact absurd hr (by simp)
  | some k =>
    rw [sigtstp_handler_found s k hfind] at hr
    simp only [Option.some.injEq] at hr
    rw [← hr]
    obtain ⟨hpos, hpid⟩ := getjobpid_some_spec _ _ k hfind
    apply setState_inv s k ST h
    intro hfree
    rw [hfree] at hpid
    have : (0 : Int) = fgpid s.jobs := hpid
    omega

/-- The tail of `do_bgfg` keeps the invariant when the job it is given is
not a free slot. -/
theorem bgfgResume_inv (s : Shell) (isFG : Bool) (JOB : Option (Fin MAXJOBS)) (h : s.Inv)
    (hocc : ∀ k, JOB = some k → s.jobs k ≠ freeJob) : (bgfgResume s isFG JOB).1.Inv := by
  unfold bgfgResume
  cases JOB with
  | none => exact h
  | some k =>
    cases isFG with
    | true => exact setState_inv s k FG h (hocc k rfl)
    | false => exact setState_inv s k BG h (hocc k rfl)

/-- The job `do_bgfg` selects is never a free slot. -/
theorem bgfgTarget_occupied (jobs : Fin MAXJOBS → job_t) (argv1 : Option String)
    (JOB : Option (Fin MAXJOBS)) (k : Fin MAXJOBS)
    (h : bgfgTarget jobs argv1 = some JOB) (hk : JOB = some k) : jobs k ≠ freeJob := by
  subst hk
  unfold bgfgTarget at h
  split at h
  · exact absurd h (by simp)
  · split at h
    · exact absurd h (by simp)
    · split at h
      · simp only [Option.some.injEq] at h
        obtain ⟨hpos, hjid⟩ := getjobjid_some_spec _ _ k h
        intro hfree
        rw [hfree] at hjid
        have : (0 : Int) = _ := hjid
        omega
      · split at h
        · simp only [Option.some.injEq] at h
          obtain ⟨hpos, hpid⟩ := getjobpid_some_spec _ _ k h
          intro hfree
          rw [hfree] at hpid
          have : (0 : Int) = _ := hpid
          omega
        · exact absurd h (by simp)

/-- `do_bgfg` keeps the invariant. -/
theorem do_bgfg_inv (s : Shell) (argv : List String) (r : Shell × List Event) (h : s.Inv)
    (hr : do_bgfg s argv = some r) : r.1.Inv := by
  unfold do_bgfg at hr
  split at hr
  · exact absurd hr (by simp)
  · split at hr
    · split at hr
      · rename_i JOB htarget
        simp only [Option.some.injEq] at hr
        rw [← hr]
        exact bgfgResume_inv s true JOB h
          (fun k hk => bgfgTarget_occupied s.jobs _ JOB k htarget hk)
      · simp only [Option.some.injEq] at hr
        rw [← hr]
        exact h
    · split at hr
      · split at hr
        · rename_i JOB htarget
          simp only [Option.some.injEq] at hr
          rw [← hr]
          exact bgfgResume_inv s false JOB h
            (fun k hk => bgfgTarget_occupied s.jobs _ JOB k htarget hk)
        · simp only [Option.some.injEq] at hr
          rw [← hr]
          exact h
      · exact absurd hr (by simp)

/-! ## Reading back a printed job ID -/

/-- The character of a decimal digit `m` is the single `char` `48 + m`. -/
theorem charBytes_digitChar (m : Nat) (hm : m < 10) :
    charBytes (Nat.digitChar m) = [(48 : Int) + m] := by
  interval_cases m <;> decide

/-- The body of the loop of `stringToInt`, written out. -/
theorem stringToIntStep_eq (r ch : Int) :
    stringToIntStep r ch = wrapInt (wrapInt (r * 10) + (ch - 48)) := rfl

/-- One round of the loop of `stringToInt`, on a value `q` and the digit
character of `d`, yields `q * 10 + d` when that fits an `int`. -/
theorem stringToInt_step (q d : Nat) (hd : d < 10) (hfit : q * 10 + d < 2147483648) :
    (charBytes (Nat.digitChar d)).foldl stringToIntStep (q : Int)
      = ((q * 10 + d : Nat) : Int) := by
  rw [charBytes_digitChar d hd, List.foldl_cons, List.foldl_nil, stringToIntStep_eq]
  have h1 : wrapInt ((q : Int) * 10) = (q : Int) * 10 :=
    wrapInt_of_range _ (by omega) (by omega)
  rw [h1, wrapInt_of_range _ (by omega) (by omega)]
  push_cast
  omega

/-- The loop of `stringToInt`, started at 0 on the decimal digits of `n`
followed by `ds`, reaches `n` when it arrives at `ds`. -/
theorem stringToInt_toDigitsCore (fuel : Nat) :
    ∀ (n : Nat) (ds : List Char), n < fuel → n < 2147483648 →
      (Nat.toDigitsCore 10 fuel n ds).foldl
          (fun returnInt c => (charBytes c).foldl stringToIntStep returnInt) 0
        = ds.foldl
          (fun returnInt c => (charBytes c).foldl stringToIntStep returnInt) (n : Int) := by
  induction fuel with
  | zero =>
    intro n ds h
    exact absurd h (Nat.not_lt_zero n)
  | succ fuel ih =>
    intro n ds hfuel hfit
    have hsplit : n / 10 * 10 + n % 10 = n := by omega
    have hstep := stringToInt_step (n / 10) (n % 10) (by omega) (by omega)
    rw [hsplit] at hstep
    unfold Nat.toDigitsCore
    by_cases hzero : n / 10 = 0
    · simp only [hzero, if_true, List.foldl_cons]
      rw [hzero] at hstep
      simp only [Nat.cast_zero] at hstep
      rw [hstep]
    · simp only [hzero, if_false]
      rw [ih (n / 10) _ (by omega) (by omega), List.foldl_cons, hstep]

/-- `stringToInt` reads the decimal digits of `n` back as `n` when `n` is
in the `int` range. -/
theorem stringToInt_toDigits (n : Nat) (hfit : n < 2147483648) :
    stringToInt (Nat.toDigits 10 n) = n := by
  unfold stringToInt Nat.toDigits
  rw [stringToInt_toDigitsCore (n + 1) n [] (by omega) hfit]
  rfl

/-- `stringToInt` reads the `%d` text of `j` back as `j` for
`0 <= j <= INT_MAX`. -/
theorem stringToInt_fmtInt (j : Int) (hlo : 0 ≤ j) (hhi : j < 2147483648) :
    stringToInt (fmtInt j).toList = j := by
  obtain ⟨n, rfl⟩ := Int.eq_ofNat_of_zero_le hlo
  have h : (fmtInt (n : Int)).toList = Nat.toDigits 10 n := rfl
  rw [h]
  exact stringToInt_toDigits n (by omega)

/-! ## bg on a stopped job -/

/-- The target `%` followed by the `%d` text of a job ID `j` of the `int`
range is looked up by `getjobjid(jobs, j)`. -/
theorem bgfgTarget_percent (jobs : Fin MAXJOBS → job_t) (j : Int)
    (hlo : 0 ≤ j) (hhi : j < 2147483648) :
    bgfgTarget jobs (some ("%" ++ fmtInt j)) = some (getjobjid jobs j) := by
  have hchars : ("%" ++ fmtInt j).toList = '%' :: (fmtInt j).toList := rfl
  unfold bgfgTarget
  simp only [hchars, if_true, stringToInt_fmtInt j hlo hhi]

/-- On a well-formed table, `getjobjid` finds the only occupied slot that
carries a positive job ID `j`. -/
theorem getjobjid_of_unique (s : Shell) (k : Fin MAXJOBS) (j : Int) (hinv : s.Inv)
    (hj : 1 ≤ j) (hjid : (s.jobs k).jid = j)
    (honly : ∀ i, (s.jobs i).pid ≠ 0 → (s.jobs i).jid = j → i = k) :
    getjobjid s.jobs j = some k := by
  unfold getjobjid
  rw [if_neg (by omega), firstSlot_eq_some_iff]
  refine ⟨by simpa using hjid, ?_⟩
  intro i hik
  have hne : (s.jobs i).jid ≠ j := by
    intro hij
    have hocc : (s.jobs i).pid ≠ 0 := by
      rcases hinv.1 i with hfree | hpos
      · rw [hfree] at hij
        have : (0 : Int) = j := hij
        omega
      · omega
    exact absurd (honly i hocc hij) (ne_of_lt hik)
  simpa using hne

/-- C11: on a well-formed table in which slot `k` is the only occupied slot
with job ID `j`, `1 <= j <= INT_MAX`, and slot `k` is stopped with PID `p`,
`do_bgfg` with the arguments `bg` and `%` followed by the decimal digits of
`j` returns, sets the state of slot `k` to `BG` and leaves its other fields,
every other slot and `nextjid` as they were, calls `kill(p, SIGCONT)`, and
prints `Job [j] (p) ` followed by the command text of the job. The proof
does not use that the slot is stopped: any state is replaced by `BG`. -/
theorem do_bgfg_bg_resumes_stopped (s : Shell) (k : Fin MAXJOBS) (j : Int) (hinv : s.Inv)
    (hj : 1 ≤ j) (hrange : j ≤ 2147483647)
    (_hocc : (s.jobs k).pid ≠ 0) (hjid : (s.jobs k).jid = j) (_hst : (s.jobs k).state = ST)
    (honly : ∀ i, (s.jobs i).pid ≠ 0 → (s.jobs i).jid = j → i = k) :
    ∃ r, do_bgfg s ["bg", "%" ++ fmtInt j] = some r ∧
      r.1.jobs k = { pid := (s.jobs k).pid, jid := j, state := BG,
                     cmdline := (s.jobs k).cmdline } ∧
      (∀ i, i ≠ k → r.1.jobs i = s.jobs i) ∧
      r.1.nextjid = s.nextjid ∧
      r.2 = [Event.kill (s.jobs k).pid Signal.SIGCONT,
             Event.printf ("Job [" ++ fmtInt j ++ "] (" ++ fmtInt (s.jobs k).pid ++ ") "
               ++ (s.jobs k).cmdline)] := by
  have hfind := getjobjid_of_unique s k j hinv hj hjid honly
  have htarget : bgfgTarget s.jobs (some ("%" ++ fmtInt j)) = some (some k) := by
    rw [bgfgTarget_percent s.jobs j (by omega) (by omega), hfind]
  have hrun : do_bgfg s ["bg", "%" ++ fmtInt j] = some (bgfgResume s false (some k)) := by
    unfold do_bgfg
    simp only [List.head?_cons, htarget]
    rw [if_neg (by decide), if_pos trivial]
  refine ⟨_, hrun, ?_, ?_, rfl, ?_⟩
  · unfold bgfgResume
    simp only [Bool.not_false, if_true, Function.update_same]
    rw [← hjid]
  · intro i hik
    unfold bgfgResume
    simp only [Bool.not_false, if_true, Function.update_noteq hik]
  · unfold bgfgResume
    simp only [Bool.not_false, if_true]
    rw [← hjid]

set_option maxRecDepth 100000 in
/-- C11 on the table `stopped5`, whose slot 4 holds the stopped job 5 with
PID 300: `bg %5` sets it to `BG`, sends `SIGCONT` to PID 300 and prints
`Job [5] (300) ` followed by its command text. -/
theorem do_bgfg_bg_resumes_stopped_witness :
    stopped5.Inv ∧
    stopped5.jobs 4 = { pid := 300, jid := 5, state := ST, cmdline := "/bin/sleep 100\n" } ∧
    (∀ i, (stopped5.jobs i).pid ≠ 0 → (stopped5.jobs i).jid = 5 → i = 4) ∧
    ∃ r, do_bgfg stopped5 ["bg", "%5"] = some r ∧
      (r.1.jobs 4).state = BG ∧
      r.2 = [Event.kill 300 Signal.SIGCONT, Event.printf "Job [5] (300) /bin/sleep 100\n"] :=
  have h := do_bgfg_bg_resumes_stopped stopped5 4 5 (by decide) (by decide) (by decide)
    (by decide) (by decide) (by decide) (by decide)
  ⟨by decide, by decide, by decide, h.choose, h.choose_spec.1,
    by rw [h.choose_spec.2.1],
    h.choose_spec.2.2.2.2⟩

end Tsh
